import Mathlib

/-!
Verification development for the mnt-gdrive FUSE driver.

Shallow embedding of the core data model and operations:
* access modes, fetch modes and the kernel error kinds
  (src/internal/phantomfile/phantomfile.go),
* the per-open handle operations Flush/Read/Write/Release
  (src/internal/gdrive/gdrive.go, handle section),
* the one-shot cancellable fetcher (src/internal/phantomfile/fetcher.go),
* the open-file and phantom-file lifecycle
  (src/internal/phantomfile/openfile.go, phantomfile.go),
* the system node cache and its change-application protocol
  (src/main.go: system.processChange, removeNode, insertNode, node.update),
* the kernel bridge operations node.Open and node.Rename (src/main.go),
* the change-polling loop decision (system.watchForChanges) and the live
  driver's ProcessChanges feed handling (gdrive package).

External effects (remote network calls, the temp file, the kernel) are
modelled as oracle arguments: each operation takes the outcome the
corresponding external call would produce and the definitions record which
external calls were made, so that call/no-call properties are provable.
-/

namespace MntGdrive

/-- Error kinds surfaced to the kernel, as used by the Go sources
(fuse.ENODATA, fuse.EIO, fuse.EPERM, fuse.ENOTSUP, fuse.ESTALE,
fuse.ENOENT and syscall.EACCES). -/
inductive FuseErr where
  | enodata
  | eio
  | eperm
  | enotsup
  | estale
  | enoent
  | eaccess
deriving DecidableEq

/-- Errors produced by remote download/upload calls.  `canceled` stands for
context.Canceled; `other k` stands for any other error value. -/
inductive DlErr where
  | canceled
  | other (code : Nat)
deriving DecidableEq

/-- AccessMode is a uint32 in the source (phantomfile.go); the three
constants are the syscall open-mode values. -/
abbrev AccessMode := Nat

/-- syscall.O_RDONLY -/
def ReadOnly : AccessMode := 0

/-- syscall.O_WRONLY -/
def WriteOnly : AccessMode := 1

/-- syscall.O_RDWR -/
def ReadWrite : AccessMode := 2

/-- AccessMode.isReadable from phantomfile.go: am == ReadOnly || am == ReadWrite. -/
def isReadable (am : AccessMode) : Bool :=
  am == ReadOnly || am == ReadWrite

/-- AccessMode.isWriteable from phantomfile.go: am == WriteOnly || am == ReadWrite. -/
def isWriteable (am : AccessMode) : Bool :=
  am == WriteOnly || am == ReadWrite

/-- FetchMode from phantomfile.go (ProactiveFetch = 0, FetchAsNeeded = 1,
NoFetch = 2). -/
inductive FetchMode where
  | proactiveFetch
  | fetchAsNeeded
  | noFetch
deriving DecidableEq

/-!
## Handle (gdrive.go handle section)

A handle carries an access mode and an atomic released flag (uint32,
initialized 0).  Its operations guard on the released flag and the access
mode and otherwise delegate to the open-file.  The open-file outcome is an
oracle argument; each result records whether the open-file operation was
actually invoked.
-/

/-- Per-open handle state: access mode and the released flag
(uint32 accessed atomically in the source; false initially). -/
structure Handle where
  am : AccessMode
  released : Bool
deriving DecidableEq

/-- newHandle: a fresh handle bound to the phantom file, released flag 0. -/
def newHandle (am : AccessMode) : Handle :=
  { am := am, released := false }

/-- handle.Flush: if released, ESTALE; if the access mode is not writeable,
success without calling the open-file; else delegate to openFile.flush.
The Bool records whether the open-file flush was called. -/
def handleFlush (h : Handle) (ofFlush : Option FuseErr) : Option FuseErr × Bool :=
  if h.released then (some .estale, false)
  else if !(isWriteable h.am) then (none, false)
  else (ofFlush, true)

/-- handle.Read: if released, ESTALE; if the access mode is not readable,
EPERM; else delegate to openFile.read. -/
def handleRead (h : Handle) (ofRead : Option FuseErr) : Option FuseErr × Bool :=
  if h.released then (some .estale, false)
  else if !(isReadable h.am) then (some .eperm, false)
  else (ofRead, true)

/-- handle.Write: if released, ESTALE; if the access mode is not writeable,
EPERM; else delegate to openFile.write. -/
def handleWrite (h : Handle) (ofWrite : Option FuseErr) : Option FuseErr × Bool :=
  if h.released then (some .estale, false)
  else if !(isWriteable h.am) then (some .eperm, false)
  else (ofWrite, true)

/-- Outcome of handle.Release: the new handle state, the returned error,
whether the open-file flush ran, and whether phantom.release ran. -/
structure ReleaseOutcome where
  h : Handle
  result : Option FuseErr
  flushCalled : Bool
  phantomReleaseCalled : Bool
deriving DecidableEq

/-- handle.Release: compare-and-swap the released flag from 0 to 1; if it
was already 1, ESTALE and nothing else happens.  Otherwise flush first when
the access mode is writeable (recording its error), then call
phantom.release; return the flush error if any, else the release error. -/
def handleRelease (h : Handle) (ofFlush : Option FuseErr)
    (pfRelease : Option FuseErr) : ReleaseOutcome :=
  if h.released then
    { h := h, result := some .estale, flushCalled := false,
      phantomReleaseCalled := false }
  else
    let flushErr := if isWriteable h.am then ofFlush else none
    { h := { h with released := true },
      result := if flushErr.isSome then flushErr else pfRelease,
      flushCalled := isWriteable h.am,
      phantomReleaseCalled := true }

/-!
## Fetcher (fetcher.go)

One-shot cancellable download of remote contents into the temp file.
State: the cancellation token of its child context (cancelled flag), the
done flag and the stored error.  The remote download outcome is an oracle
argument; each fetch result records whether the download body actually ran.
The parent context is context.Background(), which is never cancelled, so
the only cancellation source is abort().
-/

/-- Fetcher state: the child context's cancelled flag, the done flag and
the stored error (fetcher.go fields ctx/cancel, done, err). -/
structure Fetcher where
  cancelled : Bool
  done : Bool
  err : Option DlErr
deriving DecidableEq

/-- newFetcher: done starts true for NoFetch (with no stored error), false
otherwise.  (For ProactiveFetch the source additionally spawns `go fetch()`;
in the trace model that spawned call is an explicit fetch operation.) -/
def newFetcher (fm : FetchMode) : Fetcher :=
  { cancelled := false, done := (fm == FetchMode.noFetch), err := none }

/-- The value fetch returns for a stored error: context.Canceled is folded
to no-error (`if f.err == context.Canceled { return nil }`). -/
def stripCanceled : Option DlErr → Option DlErr
  | some .canceled => none
  | e => e

/-- Result of one fetch call: the new fetcher state, the returned error,
and whether the download body ran. -/
structure FetchResult where
  f : Fetcher
  ret : Option DlErr
  downloaded : Bool
deriving DecidableEq

/-- fetcher.fetch with the download outcome `dl` as oracle: under the lock,
if not yet done, consult ctx.Err() (Canceled when the token was cancelled);
when cancelled store that error without downloading, otherwise run the
download and store its result; mark done.  Return the stored error with
context.Canceled folded to nil. -/
def fetch (f : Fetcher) (dl : Option DlErr) : FetchResult :=
  if f.done then
    { f := f, ret := stripCanceled f.err, downloaded := false }
  else if f.cancelled then
    { f := { f with done := true, err := some .canceled },
      ret := none, downloaded := false }
  else
    { f := { f with done := true, err := dl },
      ret := stripCanceled dl, downloaded := true }

/-- fetcher.abort: cancel the token, then fetch (which observes the
cancellation and finalizes). -/
def abort (f : Fetcher) (dl : Option DlErr) : FetchResult :=
  fetch { f with cancelled := true } dl

/-- One operation against a fetcher: a fetch call or an abort call, each
carrying the outcome the download would produce if it ran. -/
inductive FOp where
  | fetchOp (dl : Option DlErr)
  | abortOp (dl : Option DlErr)
deriving DecidableEq

/-- State transition of one fetcher operation. -/
def fstep (f : Fetcher) (op : FOp) : Fetcher :=
  match op with
  | .fetchOp dl => (fetch f dl).f
  | .abortOp dl => (abort f dl).f

/-- Whether one fetcher operation runs the download body. -/
def fdownloads (f : Fetcher) (op : FOp) : Bool :=
  match op with
  | .fetchOp dl => (fetch f dl).downloaded
  | .abortOp dl => (abort f dl).downloaded

/-- Run a sequence of fetcher operations. -/
def runFOps (f : Fetcher) (ops : List FOp) : Fetcher :=
  match ops with
  | [] => f
  | op :: rest => runFOps (fstep f op) rest

/-- Number of times the download body runs over a sequence of operations. -/
def countDownloads (f : Fetcher) (ops : List FOp) : Nat :=
  match ops with
  | [] => 0
  | op :: rest =>
      (if fdownloads f op then 1 else 0) + countDownloads (fstep f op) rest

/-- A done fetcher stepped by any operation stays done with the same error. -/
theorem fstep_done (f : Fetcher) (op : FOp) (hd : f.done = true) :
    (fstep f op).done = true ∧ (fstep f op).err = f.err := by
  cases op <;> simp [fstep, fetch, abort, hd]

/-- A done fetcher never downloads. -/
theorem fdownloads_done (f : Fetcher) (op : FOp) (hd : f.done = true) :
    fdownloads f op = false := by
  cases op <;> simp [fdownloads, fetch, abort, hd]

/-- If an operation downloads, the resulting state is done. -/
theorem fstep_done_of_downloads (f : Fetcher) (op : FOp)
    (h : fdownloads f op = true) : (fstep f op).done = true := by
  cases op with
  | fetchOp dl =>
      by_cases hd : f.done
      · simp [fdownloads, fetch, hd] at h
      · by_cases hc : f.cancelled <;>
          simp [fstep, fdownloads, fetch, hd, hc] at h ⊢
  | abortOp dl =>
      by_cases hd : f.done
      · simp [fdownloads, abort, fetch, hd] at h
      · simp [fstep, fdownloads, abort, fetch, hd] at h ⊢

/-- Done is monotone: once done, always done with a frozen error. -/
theorem runFOps_done (f : Fetcher) (ops : List FOp) (hd : f.done = true) :
    (runFOps f ops).done = true ∧ (runFOps f ops).err = f.err := by
  induction ops generalizing f with
  | nil => exact ⟨hd, rfl⟩
  | cons op rest ih =>
      have h := fstep_done f op hd
      have := ih (fstep f op) h.1
      exact ⟨this.1, this.2.trans h.2⟩

/-- Over any run the download body executes at most once: at most once
from a not-yet-done state, never from a done state. -/
theorem countDownloads_le (ops : List FOp) (f : Fetcher) :
    countDownloads f ops ≤ (if f.done then 0 else 1) := by
  induction ops generalizing f with
  | nil => simp [countDownloads]
  | cons op rest ih =>
      by_cases hd : f.done = true
      · have h1 := fdownloads_done f op hd
        have h2 := (fstep_done f op hd).1
        have := ih (fstep f op)
        simp [countDownloads, h1, h2, hd] at this ⊢
        simpa [h2] using this
      · simp only [Bool.not_eq_true] at hd
        by_cases hdl : fdownloads f op = true
        · have h2 := fstep_done_of_downloads f op hdl
          have := ih (fstep f op)
          simp [countDownloads, hdl, hd, h2] at this ⊢
          simpa [h2] using this
        · simp only [Bool.not_eq_true] at hdl
          have := ih (fstep f op)
          simp only [countDownloads, hdl, if_false, hd]
          calc 0 + countDownloads (fstep f op) rest
              = countDownloads (fstep f op) rest := by omega
            _ ≤ (if (fstep f op).done then 0 else 1) := this
            _ ≤ 1 := by split <;> omega

/-- A done fetcher is left unchanged by fetch, which returns the stored
error with Canceled folded to nil and does not download. -/
theorem fetch_done (f : Fetcher) (dl : Option DlErr) (hd : f.done = true) :
    fetch f dl = { f := f, ret := stripCanceled f.err, downloaded := false } := by
  simp [fetch, hd]

/-- A cancelled, not-yet-done fetcher returns no error from fetch and does
not download. -/
theorem fetch_cancelled (f : Fetcher) (dl : Option DlErr)
    (hd : f.done = false) (hc : f.cancelled = true) :
    (fetch f dl).ret = none ∧ (fetch f dl).downloaded = false := by
  simp [fetch, hd, hc]

/-!
## Open-file and phantom file (openfile.go, phantomfile.go)

An open-file owns the temp file, a fetcher and a dirty flag.  A phantom
file multiplexes handles onto at most one open-file: a lock, a handle
counter (uint32 in the source; modelled as Nat — valid traces never
underflow because every release comes from a handle that was opened and
released exactly once) and an optional open-file slot.
-/

/-- Open-file state: its fetcher and the dirty flag.  The temp file itself
is external (oracle outcomes model reads/writes/uploads against it). -/
structure OFState where
  fetcher : Fetcher
  dirty : Bool
deriving DecidableEq

/-- openFile.truncate: truncate the temp file and mark dirty.  The fetcher
is not consulted on this path. -/
def ofTruncate (o : OFState) : OFState :=
  { o with dirty := true }

/-- openFile.flush: under the dirty lock, a no-op success when not dirty;
otherwise upload the temp file (an upload, never a download) and clear the
dirty flag on success. -/
def ofFlush (o : OFState) (uploadErr : Option DlErr) : OFState × Option DlErr :=
  if !o.dirty then (o, none)
  else
    match uploadErr with
    | none => ({ o with dirty := false }, none)
    | some e => (o, some e)

/-- Phantom-file state: the handle counter and the optional open-file
(PhantomFile.handleCount and PhantomFile.of). -/
structure PFWorld where
  handleCount : Nat
  of : Option OFState
deriving DecidableEq

/-- NewPhantomFile: no open-file, no handles. -/
def newPhantomFile : PFWorld :=
  { handleCount := 0, of := none }

/-- Result of PhantomFile.Open: the new state, whether a handle was
returned (false means newOpenFile failed and the error was returned), and
how many times the download body ran (the background fetch spawned for
ProactiveFetch on a newly constructed open-file, scheduled immediately
here; any schedule downloads the same number of times). -/
structure PFOpenResult where
  w : PFWorld
  ok : Bool
  downloads : Nat
deriving DecidableEq

/-- PhantomFile.Open: under the lock, construct the open-file if the slot
is empty (newOpenFile creates the temp file — success is the oracle
`newOK` — and a fetcher with the given fetch mode, spawning a background
fetch for ProactiveFetch); then increment the handle count and hand out a
fresh handle. -/
def pfOpen (w : PFWorld) (fm : FetchMode) (newOK : Bool)
    (proDl : Option DlErr) : PFOpenResult :=
  match w.of with
  | some _ =>
      { w := { w with handleCount := w.handleCount + 1 }, ok := true,
        downloads := 0 }
  | none =>
      if newOK then
        let f0 := newFetcher fm
        let (f1, d1) :=
          if fm == FetchMode.proactiveFetch then
            let r := fetch f0 proDl
            (r.f, if r.downloaded then 1 else 0)
          else (f0, 0)
        { w := { handleCount := w.handleCount + 1,
                 of := some { fetcher := f1, dirty := false } },
          ok := true, downloads := d1 }
      else
        { w := w, ok := false, downloads := 0 }

/-- Result of PhantomFile.release: new state and how many times the
download body ran (openFile.release aborts the fetcher, which never
downloads). -/
structure PFReleaseResult where
  w : PFWorld
  downloads : Nat
  fetcherAfter : Option Fetcher
deriving DecidableEq

/-- PhantomFile.release: under the lock, decrement the handle count; when
it reaches zero, release the open-file (abort its fetcher, close and
unlink the temp file) and drop it from the slot.  `fetcherAfter` reports
the open-file fetcher's state after the call, when an open-file was
present. -/
def pfRelease (w : PFWorld) (abortDl : Option DlErr) : PFReleaseResult :=
  let hc := w.handleCount - 1
  if 0 < hc then
    { w := { w with handleCount := hc }, downloads := 0,
      fetcherAfter := w.of.map (·.fetcher) }
  else
    match w.of with
    | some o =>
        let r := abort o.fetcher abortDl
        { w := { handleCount := hc, of := none },
          downloads := if r.downloaded then 1 else 0,
          fetcherAfter := some r.f }
    | none =>
        -- Unreachable on valid traces: the open-file exists whenever the
        -- handle count is positive.
        { w := { handleCount := hc, of := none }, downloads := 0,
          fetcherAfter := none }

/-- One phantom-file operation: an Open (with construction-success and
background-download oracles) or a release (with the abort download
oracle). -/
inductive PFOp where
  | openOp (fm : FetchMode) (newOK : Bool) (proDl : Option DlErr)
  | releaseOp (abortDl : Option DlErr)
deriving DecidableEq

/-- State transition of a phantom-file operation. -/
def pfStep (w : PFWorld) (op : PFOp) : PFWorld :=
  match op with
  | .openOp fm newOK proDl => (pfOpen w fm newOK proDl).w
  | .releaseOp abortDl => (pfRelease w abortDl).w

/-- Run a sequence of phantom-file operations. -/
def runPFOps (w : PFWorld) (ops : List PFOp) : PFWorld :=
  match ops with
  | [] => w
  | op :: rest => runPFOps (pfStep w op) rest

/-- Valid operation sequences: a release only happens while some handle is
open and not yet released, i.e. while the handle count is positive.  (Each
kernel handle is released at most once — handle.Release enforces this with
its compare-and-swap.) -/
def pfValidFrom (w : PFWorld) : List PFOp → Prop
  | [] => True
  | op :: ops =>
      (∀ dl, op = PFOp.releaseOp dl → 0 < w.handleCount) ∧
        pfValidFrom (pfStep w op) ops

/-- The phantom-file invariant: the open-file exists iff the handle count
is positive. -/
def pfInv (w : PFWorld) : Prop :=
  w.of.isSome ↔ 0 < w.handleCount

/-- One valid step preserves the phantom-file invariant. -/
theorem pfStep_inv (w : PFWorld) (op : PFOp) (hinv : pfInv w)
    (hval : ∀ dl, op = PFOp.releaseOp dl → 0 < w.handleCount) :
    pfInv (pfStep w op) := by
  cases op with
  | openOp fm newOK proDl =>
      cases hof : w.of with
      | some o => simp [pfStep, pfOpen, pfInv, hof]
      | none =>
          by_cases hok : newOK = true
          · simp [pfStep, pfOpen, pfInv, hof, hok]
          · simp only [Bool.not_eq_true] at hok
            simpa [pfStep, pfOpen, hof, hok] using hinv
  | releaseOp dl =>
      have hpos : 0 < w.handleCount := hval dl rfl
      have hsome : w.of.isSome := hinv.mpr hpos
      cases hof : w.of with
      | none => rw [hof] at hsome; simp at hsome
      | some o =>
          by_cases hc : 0 < w.handleCount - 1
          · simp [pfStep, pfRelease, pfInv, hof, hc]
          · simp [pfStep, pfRelease, pfInv, hof, hc]

/-- The invariant holds after any valid run from an invariant state. -/
theorem runPFOps_inv (ops : List PFOp) (w : PFWorld) (hinv : pfInv w)
    (hval : pfValidFrom w ops) : pfInv (runPFOps w ops) := by
  induction ops generalizing w with
  | nil => exact hinv
  | cons op rest ih =>
      exact ih (pfStep w op) (pfStep_inv w op hinv hval.1) hval.2

/-- abort never runs the download body: a done fetcher skips it, and a
not-yet-done fetcher observes the fresh cancellation. -/
theorem abort_never_downloads (f : Fetcher) (dl : Option DlErr) :
    (abort f dl).downloaded = false := by
  by_cases hd : f.done = true <;> simp [abort, fetch, hd]

/-- A done fetcher with no stored error never downloads again, whatever
operations follow. -/
theorem countDownloads_done (ops : List FOp) (f : Fetcher)
    (hd : f.done = true) : countDownloads f ops = 0 := by
  induction ops generalizing f with
  | nil => rfl
  | cons op rest ih =>
      simp [countDownloads, fdownloads_done f op hd,
        ih (fstep f op) (fstep_done f op hd).1]

/-- The fetch mode PhantomFile.Truncate selects: NoFetch when truncating
to zero, ProactiveFetch otherwise. -/
def truncateFetchMode (size : Int) : FetchMode :=
  if size == 0 then FetchMode.noFetch else FetchMode.proactiveFetch

/-- Outcome of PhantomFile.Truncate: final phantom state, the result
error, how many times the download body ran during the whole flow, and the
state of the open-file's fetcher afterwards (when one was involved). -/
structure TruncateOutcome where
  w : PFWorld
  err : Option FuseErr
  downloads : Nat
  fetcherAfter : Option Fetcher
deriving DecidableEq

/-- PhantomFile.Truncate: open WriteOnly with NoFetch when size == 0
(ProactiveFetch otherwise); on open failure return the error.  Otherwise
truncate the temp file (marking dirty), flush unless the truncate failed,
and finally release the handle — handle.Release flushes the writeable
handle again and then calls phantom.release, which aborts the fetcher and
drops the open-file when this was the last handle.  Oracles: `newOK` for
temp-file creation, `proDl` for the background fetch's download outcome,
`truncErr` for the temp-file truncate, `uploadErr` for uploads, `abortDl`
for a download racing the abort. -/
def pfTruncate (w : PFWorld) (size : Int) (newOK : Bool)
    (proDl : Option DlErr) (truncErr : Option FuseErr)
    (uploadErr : Option DlErr) (abortDl : Option DlErr) : TruncateOutcome :=
  let fm := truncateFetchMode size
  let ropen := pfOpen w fm newOK proDl
  if ropen.ok then
    match ropen.w.of with
    | some o =>
        let o1 := ofTruncate o
        -- h.Flush (skipped when the truncate itself failed)
        let (o2, flushErr) :=
          match truncErr with
          | some _ => (o1, none)
          | none => ofFlush o1 uploadErr
        -- deferred h.Release: writeable handle, so flush again, then
        -- phantom.release
        let (o3, _released2) := ofFlush o2 uploadErr
        let rrel := pfRelease { ropen.w with of := some o3 } abortDl
        { w := rrel.w,
          err :=
            match truncErr with
            | some e => some e
            | none => flushErr.map (fun _ => FuseErr.eio),
          downloads := ropen.downloads + rrel.downloads,
          fetcherAfter := rrel.fetcherAfter }
    | none =>
        -- Unreachable: a successful Open always leaves an open-file.
        { w := ropen.w, err := none, downloads := ropen.downloads,
          fetcherAfter := none }
  else
    { w := w, err := some FuseErr.eio, downloads := 0, fetcherAfter := none }

/-!
## Change stats and the polling loop (part of package gdrive, and
system.watchForChanges in main.go)
-/

/-- ChangeStats: the number of changes applied and the number ignored. -/
structure ChangeStats where
  changed : Nat
  ignored : Nat
deriving DecidableEq

/-- ChangeStats.FetchedChanges: true if any changes were fetched, i.e.
`cs.Changed > 0 || cs.Ignored > 0`. -/
def fetchedChanges (cs : ChangeStats) : Bool :=
  cs.changed > 0 || cs.ignored > 0

/-- What one iteration of the polling loop does after ProcessChanges
returns. -/
inductive TickAction where
  | fatal
  | logRetry
  | logStats
  | quiet
deriving DecidableEq

/-- One iteration of system.watchForChanges after ProcessChanges returned
stats `cs` and possibly an error: on error, log.Fatalf (terminating the
process) when cs.FetchedChanges(), else log and retry on the next tick; on
success, log the stats when any changes were fetched. -/
def watchTick (cs : ChangeStats) (hasErr : Bool) : TickAction :=
  if hasErr then
    if fetchedChanges cs then TickAction.fatal else TickAction.logRetry
  else
    if fetchedChanges cs then TickAction.logStats else TickAction.quiet

/-!
## Remote metadata records (gdrive/node.go)
-/

/-- gdrive.Node: the metadata record for one remote file or directory.
Times are carried as already-parsed integers. -/
structure GNode where
  id : String
  name : String
  ctime : Int
  mtime : Int
  size : Nat
  version : Int
  parentIDs : List String
  ownedByMe : Bool
  trashed : Bool
  fileExtension : String
  mimeType : String
deriving DecidableEq

/-- strings.Contains(name, "/"), expressed on the name's character list so
it evaluates. -/
def containsSlash (s : String) : Bool :=
  s.data.contains '/'

/-- Node.Dir: a record is a directory iff its mime type is the folder mime
type and it has no file extension. -/
def GNode.dir (g : GNode) : Bool :=
  g.mimeType == "application/vnd.google-apps.folder" && g.fileExtension == ""

/-- Node.IncludeNode: not trashed, no path separator in the name, and
owned by the viewer. -/
def GNode.includeNode (g : GNode) : Bool :=
  !g.trashed && !containsSlash g.name && g.ownedByMe

/-- gdrive.Change: an incremental change.  `node` is present exactly when
the change carried a metadata record (nil pointer otherwise). -/
structure Change where
  id : String
  removed : Bool
  node : Option GNode
deriving DecidableEq

/-!
## The system node cache (main.go)

The System owns all nodes, indexed by drive id and by inode.  A node keeps
its inode, id, metadata, the ids of the cached parents it is linked to,
and its children map — nil until loaded (childrenLoaded false), then a map
child-id → node.  The embedding keeps the id map as a list of nodes (the
inode map has the same value set and is kept consistent by construction);
node pointers become ids, and mutations of nodes that are no longer in the
map (unreachable objects) are dropped.  Operations that would make the Go
program call log.Fatalf or dereference nil return none.
-/

/-- One cached node (struct node in main.go), with parent pointers and
child pointers replaced by ids. -/
structure SysNode where
  idx : Nat
  id : String
  name : String
  ctime : Int
  mtime : Int
  size : Nat
  version : Int
  dir : Bool
  parents : List String
  childrenLoaded : Bool
  children : List String
deriving DecidableEq

/-- The system cache: the next inode counter and the id map. -/
structure SysState where
  nextInode : Nat
  nodes : List SysNode
deriving DecidableEq

/-- Lookup in the id map (s.idMap[id]). -/
def findNode (s : SysState) (id : String) : Option SysNode :=
  s.nodes.find? (fun q => q.id == id)

/-- node.haveChildren: children information is present. -/
def SysNode.haveChildren (n : SysNode) : Bool :=
  n.childrenLoaded

/-- The loop in removeNode over the removed node's parents: for each
parent still in the map, the child entry must be present in its loaded
children map and is deleted; if the entry is absent (children not loaded
or missing key) the source calls log.Fatalf — modelled as none.  Parents
no longer in the map are unreachable objects; deleting from them has no
observable effect. -/
def removeChildFromParents (cid : String) (pids : List String)
    (nodes : List SysNode) : Option (List SysNode) :=
  match pids with
  | [] => some nodes
  | pid :: rest =>
      match nodes.find? (fun q => q.id == pid) with
      | none => removeChildFromParents cid rest nodes
      | some p =>
          if p.childrenLoaded && p.children.contains cid then
            removeChildFromParents cid rest
              (nodes.map (fun q =>
                if q.id == pid then { q with children := q.children.erase cid }
                else q))
          else none

/-- system.removeNode: erase the node from both indices, then detach it
from each parent's children map (fatal if a parent does not know it). -/
def removeNode (s : SysState) (n : SysNode) : Option SysState :=
  let nodes := s.nodes.filter (fun q => !(q.id == n.id))
  (removeChildFromParents n.id n.parents nodes).map
    (fun nodes1 => { s with nodes := nodes1 })

/-- Insert a child id into a children list if absent (map assignment). -/
def insertChild (children : List String) (cid : String) : List String :=
  if children.contains cid then children else children ++ [cid]

/-- The loop in insertNode over the kept parents: append the new node into
each parent's children map when that parent has already loaded children. -/
def attachToLoadedParents (cid : String) (pm : List String)
    (nodes : List SysNode) : List SysNode :=
  nodes.map (fun p =>
    if pm.contains p.id && p.childrenLoaded then
      { p with children := insertChild p.children cid }
    else p)

/-- system.insertNode: allocate the next inode; keep as parents only the
parent ids present in the id map; append the new node into each such
parent's children map when that parent has already loaded children;
register the node in both indices.  The new node starts with children not
loaded. -/
def insertNode (s : SysState) (g : GNode) : SysState :=
  let inode := s.nextInode + 1
  let pm := (g.parentIDs.filter
    (fun pid => (s.nodes.find? (fun q => q.id == pid)).isSome)).dedup
  let newN : SysNode :=
    { idx := inode, id := g.id, name := g.name, ctime := g.ctime,
      mtime := g.mtime, size := g.size, version := g.version, dir := g.dir,
      parents := pm, childrenLoaded := false, children := [] }
  { nextInode := inode,
    nodes := attachToLoadedParents g.id pm s.nodes ++ [newN] }

/-- removeChild (node.update's stale-parent loop) applied to one node: a
plain map delete, which is a no-op on an unloaded (nil) children map. -/
def eraseChildIfStale (nid : String) (stale : List String) (q : SysNode) :
    SysNode :=
  if stale.contains q.id then { q with children := q.children.erase nid }
  else q

/-- addChild (node.update's added-parent loop) applied to one node. -/
def addChildIfAdded (nid : String) (added : List String) (q : SysNode) :
    SysNode :=
  if added.contains q.id then
    { q with children := insertChild q.children nid }
  else q

/-- The metadata assignment of node.update applied to one node: overwrite
the node's metadata group with the record's values and record the new
parent set. -/
def setMetaIfSelf (nid : String) (g : GNode) (ps : List String)
    (q : SysNode) : SysNode :=
  if q.id == nid then
    { q with
      name := g.name
      ctime := g.ctime
      mtime := g.mtime
      size := g.size
      version := g.version
      dir := g.dir
      parents := ps }
  else q

/-- The loop in node.update over stale parents, over the whole id map. -/
def eraseChildEverywhere (nid : String) (stale : List String)
    (nodes : List SysNode) : List SysNode :=
  nodes.map (eraseChildIfStale nid stale)

/-- The loop in node.update over newly added cached parents, over the
whole id map. -/
def addChildEverywhere (nid : String) (added : List String)
    (nodes : List SysNode) : List SysNode :=
  nodes.map (addChildIfAdded nid added)

/-- node.update's metadata assignment, over the whole id map (only the
node with the given id is rewritten). -/
def setNodeMeta (nid : String) (g : GNode) (ps : List String)
    (nodes : List SysNode) : List SysNode :=
  nodes.map (setMetaIfSelf nid g ps)

/-- node.update: apply the record's metadata; detach from parents no
longer in the record's parent set; attach to new parents that are in the
id map (addChild — a map assignment that panics when the parent's
children map is nil, modelled as none). -/
def updateNode (s : SysState) (nid : String) (g : GNode) : Option SysState :=
  match s.nodes.find? (fun q => q.id == nid) with
  | none => none
  | some n =>
      let newParentSet := g.parentIDs.dedup
      let staleParents :=
        n.parents.filter (fun pid => !newParentSet.contains pid)
      let keptParents :=
        n.parents.filter (fun pid => newParentSet.contains pid)
      let nodes1 := eraseChildEverywhere nid staleParents s.nodes
      let addedParents := newParentSet.filter (fun pid =>
        !n.parents.contains pid &&
          (nodes1.find? (fun q => q.id == pid)).isSome)
      if addedParents.all (fun pid =>
          ((nodes1.find? (fun q => q.id == pid)).map
            (fun q => q.childrenLoaded)).getD true) then
        some { s with
          nodes := setNodeMeta nid g (keptParents ++ addedParents)
            (addChildEverywhere nid addedParents nodes1) }
      else none

/-- The create condition of processChange's default case: at least one of
the record's parents is a cached node whose children are loaded. -/
def haveReadyParent (s : SysState) (g : GNode) : Bool :=
  g.parentIDs.any (fun pid =>
    match s.nodes.find? (fun q => q.id == pid) with
    | some p => p.haveChildren
    | none => false)

/-- system.processChange: classify the change and act.  Order of the
cases follows the source's switch: trash (removed or trashed record)
first — only acting when the node is cached; then a cached node whose
record fails the inclusion predicate; then a cached node (update); else
create the node only when at least one of the record's parents is cached
with loaded children, otherwise count it ignored.  A change that is not
marked removed and carries no record would dereference a nil pointer in
`c.Removed || c.Node.Trashed` (none). -/
def processChange (s : SysState) (cs : ChangeStats) (c : Change) :
    Option (SysState × ChangeStats) :=
  match c.node, c.removed with
  | none, false => none
  | none, true =>
      match findNode s c.id with
      | some n =>
          (removeNode s n).map
            (fun s1 => (s1, { cs with changed := cs.changed + 1 }))
      | none => some (s, cs)
  | some g, removed =>
      let trash := removed || g.trashed
      match findNode s c.id with
      | some n =>
          if trash then
            (removeNode s n).map
              (fun s1 => (s1, { cs with changed := cs.changed + 1 }))
          else if !g.includeNode then
            (removeNode s n).map
              (fun s1 => (s1, { cs with changed := cs.changed + 1 }))
          else
            (updateNode s n.id g).map
              (fun s1 => (s1, { cs with changed := cs.changed + 1 }))
      | none =>
          if trash then some (s, cs)
          else
            if haveReadyParent s g then
              some (insertNode s g, { cs with changed := cs.changed + 1 })
            else
              some (s, { cs with ignored := cs.ignored + 1 })

/-!
## Kernel bridge: node.Open and node.Rename (main.go)
-/

/-- The open flags the bridge inspects: the access-mode bits and the
OpenExclusive and OpenTruncate flags. -/
structure OpenFlags where
  accMode : Nat
  exclusive : Bool
  truncate : Bool
deriving DecidableEq

/-- xlateAccessMode: ReadOnly and WriteOnly map to themselves, everything
else to ReadWrite. -/
def xlateAccessMode (fl : OpenFlags) : AccessMode :=
  if fl.accMode == ReadOnly then ReadOnly
  else if fl.accMode == WriteOnly then WriteOnly
  else ReadWrite

/-- Result of node.Open as the kernel sees it, also recording whether
PhantomFile.Truncate was invoked on this path. -/
inductive OpenResult where
  /-- a directory: the node itself is returned for ReadDirAll -/
  | dirSelf
  /-- an error with no handle -/
  | failed (e : FuseErr) (truncateCalled : Bool)
  /-- a handle with the given access and fetch mode -/
  | opened (am : AccessMode) (fm : FetchMode) (truncateCalled : Bool)
      (keepCache : Bool)
  /-- the truncate-branch anomaly: a nil handle together with a nil error -/
  | nilBoth (truncateCalled : Bool)
deriving DecidableEq

/-- node.Open: directories return self; OpenExclusive is unsupported;
writeable requests on a read-only mount fail with EPERM.  A read-only open
uses ProactiveFetch and asks the kernel to keep its cache.  When the
truncate flag is set the phantom is opened with NoFetch, and the source
then runs `if err != nil { err = n.pf.Truncate(ctx, 0) }` — i.e. Truncate
runs only when the Open failed.  All other combinations fail with EACCES.
Oracles: `pfOpenErr` for PhantomFile.Open, `pfTruncErr` for
PhantomFile.Truncate. -/
def nodeOpen (isDir readonly : Bool) (fl : OpenFlags)
    (pfOpenErr : Option FuseErr) (pfTruncErr : Option FuseErr) : OpenResult :=
  if isDir then OpenResult.dirSelf
  else if fl.exclusive then OpenResult.failed FuseErr.enotsup false
  else
    let am := xlateAccessMode fl
    if !(am == ReadOnly) && readonly then OpenResult.failed FuseErr.eperm false
    else if am == ReadOnly then
      match pfOpenErr with
      | some e => OpenResult.failed e false
      | none => OpenResult.opened am FetchMode.proactiveFetch false true
    else if fl.truncate then
      match pfOpenErr with
      | none => OpenResult.opened am FetchMode.noFetch false false
      | some _ =>
          match pfTruncErr with
          | some e => OpenResult.failed e true
          | none => OpenResult.nilBoth true
    else OpenResult.failed FuseErr.eaccess false

/-- The arguments of a remote rename call (gd.Rename): child id, new
name, and the optional old/new parent ids (empty string means absent). -/
structure RenameCall where
  id : String
  newName : String
  oldParentID : String
  newParentID : String
deriving DecidableEq

/-- Result of node.Rename: either an error before or at the remote call,
or the remote call made together with the record the remote returned,
which is applied to the child via update. -/
inductive RenameResult where
  | error (e : FuseErr)
  | renamed (call : RenameCall) (applied : GNode)
deriving DecidableEq

/-- node.Rename: read-only mounts and non-directories are unsupported;
load children (EIO on failure); find the child by old name (first match,
ENOENT when absent).  Old/new parent ids are passed to the remote only
when they differ; a same-parent rename (and a nil new directory) passes
empty ids.  On remote success the returned record is applied to the child
via update.  `children` lists the directory's (id, name) pairs, `remote`
is the remote rename outcome. -/
def nodeRename (readonly isDir : Bool) (selfID : String)
    (loadErr : Option FuseErr) (children : List (String × String))
    (oldName newName : String) (newDir : Option String)
    (remote : Except FuseErr GNode) : RenameResult :=
  if readonly then RenameResult.error FuseErr.enotsup
  else if !isDir then RenameResult.error FuseErr.enotsup
  else if loadErr.isSome then RenameResult.error FuseErr.eio
  else
    match children.find? (fun c => c.2 == oldName) with
    | none => RenameResult.error FuseErr.enoent
    | some child =>
        let ids :=
          match newDir with
          | none => ("", "")
          | some nd => if selfID == nd then ("", "") else (selfID, nd)
        match remote with
        | Except.error e => RenameResult.error e
        | Except.ok g =>
            RenameResult.renamed
              { id := child.1, newName := newName, oldParentID := ids.1,
                newParentID := ids.2 } g

/-!
## The live driver's change feed (Gdrive.ProcessChanges)

Each raw change of the feed carries an id, the removed flag, and an
optional file record (absent for pure removals).  The driver converts the
record with newNode — which fails when a timestamp does not parse — and
invokes the callback only when a record is present.
-/

/-- A raw file record of the change feed, with timestamps still unparsed:
none models a string time.Parse rejects. -/
structure RawFile where
  name : String
  createdTime : Option Int
  modifiedTime : Option Int
  size : Nat
  version : Int
  parents : List String
  ownedByMe : Bool
  trashed : Bool
  fileExtension : String
  mimeType : String
deriving DecidableEq

/-- One raw change of the feed (drive Change): the file id, the removed
flag and the optional file record. -/
structure RawChange where
  fileId : String
  removed : Bool
  file : Option RawFile
deriving DecidableEq

/-- gdrive.newNode: parse both timestamps (failing when either does not
parse) and build the metadata record. -/
def newNode (id : String) (f : RawFile) : Option GNode :=
  match f.createdTime, f.modifiedTime with
  | some ct, some mt =>
      some { id := id, name := f.name, ctime := ct, mtime := mt,
             size := f.size, version := f.version, parentIDs := f.parents,
             ownedByMe := f.ownedByMe, trashed := f.trashed,
             fileExtension := f.fileExtension, mimeType := f.mimeType }
  | _, _ => none

/-- The change-callback invocations Gdrive.ProcessChanges makes for a list
of raw feed changes: a change without a file record is skipped outright; a
change with a record is converted (a conversion failure aborts the whole
call with an error); otherwise the callback receives the converted
change. -/
def feedInvocations (raws : List RawChange) : Except Unit (List Change) :=
  match raws with
  | [] => Except.ok []
  | r :: rest =>
      match r.file with
      | none => feedInvocations rest
      | some f =>
          match newNode r.fileId f with
          | none => Except.error ()
          | some n =>
              (feedInvocations rest).map
                (fun l => { id := n.id, removed := r.removed,
                            node := some n } :: l)

/-- Apply a list of callback invocations through system.processChange. -/
def applyInvocations (s : SysState) (cs : ChangeStats) :
    List Change → Option (SysState × ChangeStats)
  | [] => some (s, cs)
  | c :: rest =>
      match processChange s cs c with
      | none => none
      | some (s1, cs1) => applyInvocations s1 cs1 rest

/-- The live ProcessChanges feed applied to the system: convert the raw
changes into callback invocations and run each through processChange. -/
def processChangesFeed (s : SysState) (cs : ChangeStats)
    (raws : List RawChange) : Except Unit (Option (SysState × ChangeStats)) :=
  (feedInvocations raws).map (fun l => applyInvocations s cs l)

/-!
## Claim theorems
-/

/-- C2: for every handle, Flush, Read and Write return ESTALE whenever the
released flag is set; Read returns EPERM when the access mode is not
readable; Write returns EPERM when the access mode is not writeable; Flush
on a non-writeable handle succeeds without calling the open-file; in all
remaining cases the operation delegates to the corresponding open-file
operation and returns its result. -/
theorem handle_guards :
    ∀ (h : Handle) (ofF ofR ofW : Option FuseErr),
      (h.released = true →
        handleFlush h ofF = (some FuseErr.estale, false) ∧
        handleRead h ofR = (some FuseErr.estale, false) ∧
        handleWrite h ofW = (some FuseErr.estale, false)) ∧
      (h.released = false → isReadable h.am = false →
        handleRead h ofR = (some FuseErr.eperm, false)) ∧
      (h.released = false → isWriteable h.am = false →
        handleWrite h ofW = (some FuseErr.eperm, false)) ∧
      (h.released = false → isWriteable h.am = false →
        handleFlush h ofF = (none, false)) ∧
      (h.released = false → isReadable h.am = true →
        handleRead h ofR = (ofR, true)) ∧
      (h.released = false → isWriteable h.am = true →
        handleWrite h ofW = (ofW, true) ∧ handleFlush h ofF = (ofF, true)) := by
  intro h ofF ofR ofW
  refine ⟨?_, ?_, ?_, ?_, ?_, ?_⟩ <;> intros <;>
    simp_all [handleFlush, handleRead, handleWrite]

/-- Witness for C2: a write-only, unreleased handle refuses reads with
EPERM and delegates writes. -/
theorem handle_guards_witness :
    handleRead { am := WriteOnly, released := false } none
        = (some FuseErr.eperm, false) ∧
      handleWrite { am := WriteOnly, released := false } none = (none, true) :=
  ⟨(handle_guards { am := WriteOnly, released := false } none none none).2.1
      rfl (by decide),
    ((handle_guards { am := WriteOnly, released := false } none none none).2.2.2.2.2
      rfl (by decide)).1⟩

/-- C3: the first Release flips the released flag from false to true and,
when the access mode is writeable, flushes before releasing the phantom
file, returning the flush error if one occurred and the phantom-release
error otherwise; a Release on an already-released handle returns ESTALE,
leaves the handle unchanged and performs no flush and no phantom
release. -/
theorem handle_release_once :
    ∀ (h : Handle) (ofF pfR : Option FuseErr),
      (h.released = false → isWriteable h.am = true →
        handleRelease h ofF pfR =
          { h := { h with released := true },
            result := if ofF.isSome then ofF else pfR,
            flushCalled := true, phantomReleaseCalled := true }) ∧
      (h.released = false → isWriteable h.am = false →
        handleRelease h ofF pfR =
          { h := { h with released := true }, result := pfR,
            flushCalled := false, phantomReleaseCalled := true }) ∧
      (h.released = true →
        handleRelease h ofF pfR =
          { h := h, result := some FuseErr.estale, flushCalled := false,
            phantomReleaseCalled := false }) := by
  intro h ofF pfR
  refine ⟨?_, ?_, ?_⟩ <;> intros <;> simp_all [handleRelease]

/-- Witness for C3: releasing a fresh write-only handle flushes and
releases the phantom; the handle that results from it fails a second
Release with ESTALE, calling nothing. -/
theorem handle_release_once_witness :
    handleRelease { am := WriteOnly, released := false } none none =
      { h := { am := WriteOnly, released := true }, result := none,
        flushCalled := true, phantomReleaseCalled := true } ∧
    handleRelease { am := WriteOnly, released := true } none none =
      { h := { am := WriteOnly, released := true },
        result := some FuseErr.estale, flushCalled := false,
        phantomReleaseCalled := false } :=
  ⟨(handle_release_once { am := WriteOnly, released := false } none none).1
      rfl (by decide),
    (handle_release_once { am := WriteOnly, released := true } none none).2.2
      rfl⟩

/-- C6 counterexample: a ProcessChanges error together with stats of zero
applied (`changed`) changes but one ignored change makes the polling loop
call log.Fatalf — the claim says an error with zero applied changes is
only logged and retried. -/
theorem watchTick_ignored_error_fatal :
    watchTick { changed := 0, ignored := 1 } true = TickAction.fatal ∧
      TickAction.fatal ≠ TickAction.logRetry := by
  decide

/-- C6 (amended): on a ProcessChanges error the loop terminates the
process exactly when at least one change was fetched — applied
(`changed` > 0) or ignored (`ignored` > 0) — and only logs and retries
exactly when no change was fetched at all. -/
theorem watchTick_fatal_iff :
    ∀ cs : ChangeStats,
      (watchTick cs true = TickAction.fatal ↔
        (0 < cs.changed ∨ 0 < cs.ignored)) ∧
      (watchTick cs true = TickAction.logRetry ↔
        (cs.changed = 0 ∧ cs.ignored = 0)) := by
  intro cs
  constructor <;>
    constructor <;>
    · intro h
      simp [watchTick, fetchedChanges] at h ⊢
      omega

/-- C7: at the failing input — writable mount, non-directory node, flags
write-only with the truncate flag set, and PhantomFile.Open succeeding —
node.Open returns the NoFetch handle without ever calling
PhantomFile.Truncate: the source guards the truncate with
`if err != nil`, so it runs only when the Open failed. -/
theorem nodeOpen_truncate_skipped :
    nodeOpen false false
        { accMode := WriteOnly, exclusive := false, truncate := true }
        none none
      = OpenResult.opened WriteOnly FetchMode.noFetch false false := by
  decide

/-- C8: whenever node.Rename reaches the remote call and it succeeds, the
remote receives empty old/new parent ids exactly when the new directory is
the same node as the old parent (and when no new directory is supplied),
receives both ids when the parents differ, and the returned record is the
one applied to the child via update. -/
theorem rename_parent_ids :
    ∀ (selfID : String) (children : List (String × String))
      (oldName newName : String) (newDir : Option String) (g : GNode)
      (call : RenameCall) (applied : GNode),
      nodeRename false true selfID none children oldName newName newDir
          (Except.ok g) = RenameResult.renamed call applied →
      applied = g ∧ call.newName = newName ∧
      (newDir = some selfID → call.oldParentID = "" ∧ call.newParentID = "") ∧
      (∀ nd, newDir = some nd → nd ≠ selfID →
        call.oldParentID = selfID ∧ call.newParentID = nd) := by
  intro selfID children oldName newName newDir g call applied h
  simp only [nodeRename, Bool.not_true, if_false] at h
  simp only [if_neg (by simp : ¬ (false = true)), Option.isSome_none] at h
  cases hfind : children.find? (fun c => c.2 == oldName) with
  | none => simp [hfind] at h
  | some child =>
      simp only [hfind] at h
      cases hnd : newDir with
      | none =>
          simp only [hnd] at h
          cases h
          refine ⟨rfl, rfl, ?_, ?_⟩
          · intro hc; cases hc
          · intro nd hc; cases hc
      | some nd =>
          simp only [hnd] at h
          by_cases hsame : selfID = nd
          · subst hsame
            simp only [beq_self_eq_true, if_true] at h
            cases h
            refine ⟨rfl, rfl, fun _ => ⟨rfl, rfl⟩, ?_⟩
            intro nd1 hnd1 hne
            cases hnd1
            exact absurd rfl hne
          · rw [if_neg (by simp [hsame])] at h
            cases h
            refine ⟨rfl, rfl, ?_, ?_⟩
            · intro hc
              cases hc
              exact absurd rfl hsame
            · intro nd1 hnd1 _
              cases hnd1
              exact ⟨rfl, rfl⟩

/-- A sample metadata record used by concrete witnesses. -/
def sampleG : GNode :=
  { id := "x", name := "x", ctime := 0, mtime := 0, size := 0, version := 0,
    parentIDs := [], ownedByMe := true, trashed := false,
    fileExtension := "", mimeType := "text/plain" }

/-- Witness for C8: a same-parent rename of child c1 in directory d calls
the remote with both parent ids empty. -/
theorem rename_parent_ids_witness :
    (RenameCall.mk "c1" "new" "" "").oldParentID = "" ∧
      (RenameCall.mk "c1" "new" "" "").newParentID = "" :=
  have h : nodeRename false true "d" none [("c1", "old")] "old" "new"
      (some "d") (Except.ok sampleG)
      = RenameResult.renamed (RenameCall.mk "c1" "new" "" "") sampleG := by
    decide
  (rename_parent_ids "d" [("c1", "old")] "old" "new" (some "d") sampleG
      (RenameCall.mk "c1" "new" "" "") sampleG h).2.2.1 rfl

/-- C5: for every fetcher and any sequence of fetch and abort operations,
the download body runs at most once; a fetcher that is done stays done
with a frozen stored error, every fetch on it returns that stored result
(context.Canceled folded to no error) without downloading — and every
fetch call's return value is exactly the stored result after it, so all
completed fetches agree; and a fetch that observes cancellation before the
body ever ran returns no error. -/
theorem fetcher_at_most_once :
    (∀ (fm : FetchMode) (ops : List FOp),
      countDownloads (newFetcher fm) ops ≤ 1) ∧
    (∀ (f : Fetcher) (ops : List FOp), f.done = true →
      (runFOps f ops).done = true ∧ (runFOps f ops).err = f.err) ∧
    (∀ (f : Fetcher) (dl : Option DlErr), f.done = true →
      fetch f dl = { f := f, ret := stripCanceled f.err, downloaded := false }) ∧
    (∀ (f : Fetcher) (dl : Option DlErr),
      (fetch f dl).ret = stripCanceled (fetch f dl).f.err) ∧
    (∀ (f : Fetcher) (dl : Option DlErr), f.done = false → f.cancelled = true →
      (fetch f dl).ret = none ∧ (fetch f dl).downloaded = false) := by
  refine ⟨?_, ?_, ?_, ?_, ?_⟩
  · intro fm ops
    have h := countDownloads_le ops (newFetcher fm)
    split at h <;> omega
  · intro f ops hd
    exact runFOps_done f ops hd
  · intro f dl hd
    exact fetch_done f dl hd
  · intro f dl
    by_cases hd : f.done = true
    · simp [fetch, hd]
    · simp only [Bool.not_eq_true] at hd
      by_cases hc : f.cancelled = true <;> simp [fetch, hd, hc, stripCanceled]
  · intro f dl hd hc
    exact fetch_cancelled f dl hd hc

/-- Witness for C5: a proactive fetcher downloading on the first fetch and
then fetched again downloads once in total, and the second fetch of the
now-done fetcher returns the stored result; an aborted fresh fetcher
returns no error. -/
theorem fetcher_at_most_once_witness :
    countDownloads (newFetcher FetchMode.proactiveFetch)
        [FOp.fetchOp none, FOp.fetchOp none] ≤ 1 ∧
      (runFOps { cancelled := false, done := true, err := none }
          [FOp.abortOp none]).done = true ∧
      (fetch { cancelled := true, done := false, err := none } none).ret
        = none :=
  ⟨fetcher_at_most_once.1 FetchMode.proactiveFetch
      [FOp.fetchOp none, FOp.fetchOp none],
    (fetcher_at_most_once.2.1 { cancelled := false, done := true, err := none }
        [FOp.abortOp none] rfl).1,
    (fetcher_at_most_once.2.2.2.2 { cancelled := true, done := false, err := none }
        none rfl rfl).1⟩

/-- C4: over every valid operation sequence on a fresh phantom file (each
release matched by an earlier unreleased open), the open-file — of which
the single slot holds at most one — exists iff the handle count is
positive; Open constructs the open-file when the slot is empty and
increments the count, reuses the existing one otherwise; release
decrements the count, dropping and releasing the open-file exactly when
the count reaches zero. -/
theorem phantom_openfile_iff :
    (∀ ops : List PFOp, pfValidFrom newPhantomFile ops →
      ((runPFOps newPhantomFile ops).of.isSome ↔
        0 < (runPFOps newPhantomFile ops).handleCount)) ∧
    (∀ (w : PFWorld) (fm : FetchMode) (proDl : Option DlErr),
      w.of = none →
      (pfOpen w fm true proDl).w.of.isSome = true ∧
      (pfOpen w fm true proDl).w.handleCount = w.handleCount + 1) ∧
    (∀ (w : PFWorld) (fm : FetchMode) (newOK : Bool) (proDl : Option DlErr)
        (o : OFState), w.of = some o →
      (pfOpen w fm newOK proDl).w
        = { w with handleCount := w.handleCount + 1 }) ∧
    (∀ (w : PFWorld) (dl : Option DlErr), 1 < w.handleCount →
      (pfRelease w dl).w = { w with handleCount := w.handleCount - 1 }) ∧
    (∀ (w : PFWorld) (dl : Option DlErr), w.handleCount = 1 →
      (pfRelease w dl).w = { handleCount := 0, of := none }) := by
  refine ⟨?_, ?_, ?_, ?_, ?_⟩
  · intro ops hval
    exact runPFOps_inv ops newPhantomFile (by simp [pfInv, newPhantomFile]) hval
  · intro w fm proDl hof
    constructor <;>
      cases hfm : (fm == FetchMode.proactiveFetch) <;>
        simp [pfOpen, hof, hfm]
  · intro w fm newOK proDl o hof
    simp [pfOpen, hof]
  · intro w dl hc
    have h1 : 0 < w.handleCount - 1 := by omega
    simp [pfRelease, h1]
  · intro w dl hc
    have h1 : ¬ 0 < w.handleCount - 1 := by omega
    cases hof : w.of with
    | none => simp [pfRelease, h1, hof, hc]
    | some o => simp [pfRelease, h1, hof, hc]

/-- Witness for C4: opening once and releasing once is a valid trace and
ends with no open-file and handle count zero; a concrete Open on an empty
slot constructs, a release at count one drops. -/
theorem phantom_openfile_iff_witness :
    ((runPFOps newPhantomFile
        [PFOp.openOp FetchMode.noFetch true none, PFOp.releaseOp none]).of.isSome ↔
      0 < (runPFOps newPhantomFile
        [PFOp.openOp FetchMode.noFetch true none, PFOp.releaseOp none]).handleCount) ∧
    (pfRelease { handleCount := 1, of := some { fetcher := newFetcher FetchMode.noFetch, dirty := false } } none).w
      = { handleCount := 0, of := none } :=
  ⟨phantom_openfile_iff.1 [PFOp.openOp FetchMode.noFetch true none, PFOp.releaseOp none]
      (by refine ⟨?_, ?_, trivial⟩ <;> simp [pfStep, pfOpen, newPhantomFile]),
    phantom_openfile_iff.2.2.2.2
      { handleCount := 1, of := some { fetcher := newFetcher FetchMode.noFetch, dirty := false } }
      none rfl⟩

/-- C9: Truncate(0) selects fetch mode NoFetch and never runs the remote
download body, whatever the phantom's state; when the open-file slot is
empty at entry (the file was never materialized, in particular never
downloaded), the open-file constructed for the Truncate gets a fetcher
that is already done with no stored error, so additionally any sequence of
later fetches of that open-file's fetcher downloads nothing and returns no
error. -/
theorem pfTruncate_zero_no_download :
    (∀ (w : PFWorld) (newOK : Bool) (proDl : Option DlErr)
        (truncErr : Option FuseErr) (uploadErr abortDl : Option DlErr),
      (pfTruncate w 0 newOK proDl truncErr uploadErr abortDl).downloads
        = 0) ∧
    (∀ (w : PFWorld) (newOK : Bool) (proDl : Option DlErr)
        (truncErr : Option FuseErr) (uploadErr abortDl : Option DlErr),
      w.of = none →
      truncateFetchMode 0 = FetchMode.noFetch ∧
      (newFetcher FetchMode.noFetch).done = true ∧
      (newFetcher FetchMode.noFetch).err = none ∧
      (∀ fr, (pfTruncate w 0 newOK proDl truncErr uploadErr abortDl).fetcherAfter
          = some fr →
        fr.done = true ∧ fr.err = none ∧
        ∀ (ops : List FOp) (dl : Option DlErr),
          countDownloads fr ops = 0 ∧
          (fetch (runFOps fr ops) dl).ret = none ∧
          (fetch (runFOps fr ops) dl).downloaded = false)) := by
  constructor
  · intro w newOK proDl truncErr uploadErr abortDl
    cases hof : w.of with
    | none =>
        cases newOK with
        | false => simp [pfTruncate, pfOpen, truncateFetchMode, hof]
        | true =>
            by_cases hc : 0 < w.handleCount <;>
              cases truncErr <;> cases uploadErr <;>
                simp [pfTruncate, pfOpen, pfRelease, truncateFetchMode, hof,
                  hc, ofFlush, ofTruncate, abort, fetch, newFetcher]
    | some o =>
        by_cases hc : 0 < w.handleCount <;>
          cases truncErr <;> cases uploadErr <;>
            simp [pfTruncate, pfOpen, pfRelease, truncateFetchMode, hof, hc,
              ofFlush, ofTruncate, abort_never_downloads]
  intro w newOK proDl truncErr uploadErr abortDl hof
  have hfrdone : ∀ fr : Fetcher, fr.done = true → fr.err = none →
      ∀ (ops : List FOp) (dl : Option DlErr),
        countDownloads fr ops = 0 ∧
        (fetch (runFOps fr ops) dl).ret = none ∧
        (fetch (runFOps fr ops) dl).downloaded = false := by
    intro fr hd he ops dl
    have hrun := runFOps_done fr ops hd
    refine ⟨countDownloads_done ops fr hd, ?_, ?_⟩
    · rw [fetch_done (runFOps fr ops) dl hrun.1, hrun.2, he]
      rfl
    · rw [fetch_done (runFOps fr ops) dl hrun.1]
  cases hok : newOK with
  | false =>
      refine ⟨rfl, rfl, rfl, ?_⟩
      intro fr hfr
      simp [pfTruncate, pfOpen, truncateFetchMode, hof] at hfr
  | true =>
      have hopen : pfOpen w (truncateFetchMode 0) true proDl
          = { w := { handleCount := w.handleCount + 1,
                     of := some { fetcher := newFetcher FetchMode.noFetch,
                                  dirty := false } },
              ok := true, downloads := 0 } := by
        simp [pfOpen, truncateFetchMode, hof]
      have hfa : (pfTruncate w 0 true proDl truncErr uploadErr abortDl).fetcherAfter
            = some { cancelled := false, done := true, err := none } ∨
          (pfTruncate w 0 true proDl truncErr uploadErr abortDl).fetcherAfter
            = some { cancelled := true, done := true, err := none } := by
        by_cases hc : 0 < w.handleCount <;>
          cases truncErr <;> cases uploadErr <;>
            simp [pfTruncate, hopen, pfRelease, hc, ofFlush, ofTruncate,
              abort, fetch, newFetcher]
      refine ⟨rfl, rfl, rfl, ?_⟩
      intro fr hfr
      cases hfa with
      | inl h =>
          rw [h] at hfr
          cases hfr
          exact ⟨rfl, rfl, hfrdone _ rfl rfl⟩
      | inr h =>
          rw [h] at hfr
          cases hfr
          exact ⟨rfl, rfl, hfrdone _ rfl rfl⟩

/-- The value the source computes as `c.Removed || c.Node.Trashed`: none
when the expression would dereference a nil record. -/
def changeTrash (c : Change) : Option Bool :=
  if c.removed then some true
  else c.node.map (fun g => g.trashed)

/-- find? by id commutes with mapping an id-preserving function. -/
theorem find?_map_id (nodes : List SysNode) (f : SysNode → SysNode)
    (hf : ∀ q, (f q).id = q.id) (x : String) :
    (nodes.map f).find? (fun q => q.id == x)
      = (nodes.find? (fun q => q.id == x)).map f := by
  induction nodes with
  | nil => rfl
  | cons a l ih =>
      by_cases h : (a.id == x) = true
      · have h2 : ((f a).id == x) = true := by rw [hf a]; exact h
        simp [List.find?_cons, h, h2]
      · have h2 : ((f a).id == x) = false := by rw [hf a]; simpa using h
        simp [List.find?_cons, h, h2, ih]

/-- After filtering out every node with a given id, find? by that id
fails. -/
theorem find?_filter_ne (nodes : List SysNode) (x : String) :
    (nodes.filter (fun q => !(q.id == x))).find? (fun q => q.id == x)
      = none := by
  rw [List.find?_eq_none]
  intro q hq
  have := List.of_mem_filter hq
  simp at this ⊢
  exact this

/-- The parent-detach loop of removeNode only rewrites children maps: it
never changes which ids are found. -/
theorem removeChildFromParents_isSome (pids : List String)
    (nodes nodes1 : List SysNode) (cid x : String)
    (h : removeChildFromParents cid pids nodes = some nodes1) :
    (nodes1.find? (fun q => q.id == x)).isSome
      = (nodes.find? (fun q => q.id == x)).isSome := by
  induction pids generalizing nodes with
  | nil =>
      unfold removeChildFromParents at h
      cases h
      rfl
  | cons pid rest ih =>
      unfold removeChildFromParents at h
      cases hfind : nodes.find? (fun q => q.id == pid) with
      | none =>
          rw [hfind] at h
          exact ih nodes h
      | some p =>
          rw [hfind] at h
          dsimp only at h
          by_cases hcond : (p.childrenLoaded && p.children.contains cid) = true
          · rw [if_pos hcond] at h
            have hstep := ih _ h
            rw [hstep, find?_map_id]
            · cases nodes.find? (fun q => q.id == x) <;> rfl
            · intro q
              dsimp only
              split <;> rfl
          · rw [if_neg hcond] at h
            cases h

/-- system.removeNode erases the node from the id map. -/
theorem removeNode_find_none (s : SysState) (n : SysNode) (s1 : SysState)
    (h : removeNode s n = some s1) : findNode s1 n.id = none := by
  unfold removeNode at h
  dsimp only at h
  cases hr : removeChildFromParents n.id n.parents
      (s.nodes.filter (fun q => !(q.id == n.id))) with
  | none => rw [hr] at h; cases h
  | some nodes1 =>
      rw [hr] at h
      cases h
      have hs := removeChildFromParents_isSome n.parents _ nodes1 n.id n.id hr
      rw [find?_filter_ne] at hs
      simp only [findNode]
      cases hfind : nodes1.find? (fun q => q.id == n.id) with
      | none => rfl
      | some q => rw [hfind] at hs; simp at hs

/-- eraseChildIfStale touches only the children map. -/
theorem eraseChildIfStale_id (nid : String) (stale : List String)
    (q : SysNode) : (eraseChildIfStale nid stale q).id = q.id ∧
      (eraseChildIfStale nid stale q).idx = q.idx := by
  unfold eraseChildIfStale
  split <;> exact ⟨rfl, rfl⟩

/-- addChildIfAdded touches only the children map. -/
theorem addChildIfAdded_id (nid : String) (added : List String)
    (q : SysNode) : (addChildIfAdded nid added q).id = q.id ∧
      (addChildIfAdded nid added q).idx = q.idx := by
  unfold addChildIfAdded
  split <;> exact ⟨rfl, rfl⟩

/-- On the node itself, setMetaIfSelf overwrites the metadata group. -/
theorem setMetaIfSelf_self (nid : String) (g : GNode) (ps : List String)
    (q : SysNode) (h : (q.id == nid) = true) :
    setMetaIfSelf nid g ps q =
      { q with
        name := g.name
        ctime := g.ctime
        mtime := g.mtime
        size := g.size
        version := g.version
        dir := g.dir
        parents := ps } := by
  unfold setMetaIfSelf
  rw [h]
  rfl

/-- The fields of the node that updateNode rewrites in place: the inode
and id survive, the metadata group takes the record's values. -/
theorem updated_node_fields (nid : String) (g : GNode)
    (ps st ad : List String) (n : SysNode) (hpn : (n.id == nid) = true) :
    (setMetaIfSelf nid g ps (addChildIfAdded nid ad
        (eraseChildIfStale nid st n))).idx = n.idx ∧
    (setMetaIfSelf nid g ps (addChildIfAdded nid ad
        (eraseChildIfStale nid st n))).id = n.id ∧
    (setMetaIfSelf nid g ps (addChildIfAdded nid ad
        (eraseChildIfStale nid st n))).name = g.name ∧
    (setMetaIfSelf nid g ps (addChildIfAdded nid ad
        (eraseChildIfStale nid st n))).ctime = g.ctime ∧
    (setMetaIfSelf nid g ps (addChildIfAdded nid ad
        (eraseChildIfStale nid st n))).mtime = g.mtime ∧
    (setMetaIfSelf nid g ps (addChildIfAdded nid ad
        (eraseChildIfStale nid st n))).size = g.size ∧
    (setMetaIfSelf nid g ps (addChildIfAdded nid ad
        (eraseChildIfStale nid st n))).version = g.version ∧
    (setMetaIfSelf nid g ps (addChildIfAdded nid ad
        (eraseChildIfStale nid st n))).dir = g.dir := by
  have hq1 := eraseChildIfStale_id nid st n
  have hq2 := addChildIfAdded_id nid ad (eraseChildIfStale nid st n)
  have hid : (addChildIfAdded nid ad (eraseChildIfStale nid st n)).id = n.id :=
    hq2.1.trans hq1.1
  have hidx : (addChildIfAdded nid ad (eraseChildIfStale nid st n)).idx
      = n.idx := hq2.2.trans hq1.2
  have hcond : ((addChildIfAdded nid ad (eraseChildIfStale nid st n)).id
      == nid) = true := by rw [hid]; exact hpn
  rw [setMetaIfSelf_self nid g ps _ hcond]
  exact ⟨hidx, hid, rfl, rfl, rfl, rfl, rfl, rfl⟩

/-- node.update keeps the node cached under its id, with the same inode
and the record's metadata. -/
theorem updateNode_find (s : SysState) (nid : String) (g : GNode)
    (n : SysNode) (s1 : SysState)
    (hfind : s.nodes.find? (fun q => q.id == nid) = some n)
    (hupd : updateNode s nid g = some s1) :
    ∃ n1, findNode s1 nid = some n1 ∧ n1.idx = n.idx ∧ n1.id = n.id ∧
      n1.name = g.name ∧ n1.ctime = g.ctime ∧ n1.mtime = g.mtime ∧
      n1.size = g.size ∧ n1.version = g.version ∧ n1.dir = g.dir := by
  have hpn : (n.id == nid) = true := by
    have h1 := List.find?_some hfind
    simpa using h1
  unfold updateNode at hupd
  rw [hfind] at hupd
  simp only at hupd
  split at hupd
  case isTrue hall =>
    cases hupd
    simp only [findNode, setNodeMeta, addChildEverywhere, eraseChildEverywhere]
    rw [find?_map_id _ _ (fun q => (by
        unfold setMetaIfSelf; split <;> rfl :
          (setMetaIfSelf nid g _ q).id = q.id)) nid,
      find?_map_id _ _ (fun q => (addChildIfAdded_id nid _ q).1) nid,
      find?_map_id _ _ (fun q => (eraseChildIfStale_id nid _ q).1) nid,
      hfind]
    simp only [Option.map_some']
    exact ⟨_, rfl, updated_node_fields nid g _ _ _ n hpn⟩
  case isFalse => cases hupd

/-- system.insertNode registers the record under its id with the fresh
inode, children not yet loaded (given that the id was not cached). -/
theorem insertNode_find (s : SysState) (g : GNode)
    (hnone : findNode s g.id = none) :
    findNode (insertNode s g) g.id
      = some { idx := s.nextInode + 1, id := g.id, name := g.name,
               ctime := g.ctime, mtime := g.mtime, size := g.size,
               version := g.version, dir := g.dir,
               parents := (g.parentIDs.filter (fun pid =>
                 (s.nodes.find? (fun q => q.id == pid)).isSome)).dedup,
               childrenLoaded := false, children := [] } := by
  simp only [findNode, insertNode, attachToLoadedParents]
  rw [List.find?_append,
    find?_map_id _ _ (fun q => by split <;> rfl) g.id,
    show s.nodes.find? (fun q => q.id == g.id) = none from hnone]
  simp [List.find?_cons]

/-- C1 (amended): change application behaves as claimed for every change
that is out of the removed/trashed-and-uncached corner: a removed or
trashed change whose id is cached removes the node and increments
`changed`; a cached record failing the inclusion predicate removes the
node and increments `changed`; a cached record otherwise is updated in
place (same inode, fresh metadata) with `changed` incremented; a
non-trashed uncached record is inserted exactly when one of its parents
is cached with loaded children, and counted ignored (cache unchanged)
otherwise.  The correction: a removed or trashed change whose id is NOT
cached does nothing at all — no node is created even when a ready parent
exists, and neither counter moves. -/
theorem processChange_protocol :
    (∀ (s : SysState) (cs : ChangeStats) (c : Change) (n : SysNode)
        (s1 : SysState) (cs1 : ChangeStats),
      changeTrash c = some true → findNode s c.id = some n →
      processChange s cs c = some (s1, cs1) →
      findNode s1 c.id = none ∧ cs1.changed = cs.changed + 1 ∧
        cs1.ignored = cs.ignored) ∧
    (∀ (s : SysState) (cs : ChangeStats) (c : Change) (g : GNode)
        (n : SysNode) (s1 : SysState) (cs1 : ChangeStats),
      c.node = some g → c.removed = false → g.trashed = false →
      g.includeNode = false → findNode s c.id = some n →
      processChange s cs c = some (s1, cs1) →
      findNode s1 c.id = none ∧ cs1.changed = cs.changed + 1 ∧
        cs1.ignored = cs.ignored) ∧
    (∀ (s : SysState) (cs : ChangeStats) (c : Change) (g : GNode)
        (n : SysNode) (s1 : SysState) (cs1 : ChangeStats),
      c.node = some g → c.removed = false → g.trashed = false →
      g.includeNode = true → findNode s c.id = some n →
      processChange s cs c = some (s1, cs1) →
      (∃ n1, findNode s1 c.id = some n1 ∧ n1.idx = n.idx ∧
        n1.name = g.name ∧ n1.size = g.size ∧ n1.version = g.version ∧
        n1.dir = g.dir) ∧
      cs1.changed = cs.changed + 1 ∧ cs1.ignored = cs.ignored) ∧
    (∀ (s : SysState) (cs : ChangeStats) (c : Change) (g : GNode),
      c.node = some g → c.removed = false → g.trashed = false →
      findNode s c.id = none → haveReadyParent s g = true →
      processChange s cs c
        = some (insertNode s g, { cs with changed := cs.changed + 1 }) ∧
      (c.id = g.id → ∃ n1, findNode (insertNode s g) c.id = some n1 ∧
        n1.idx = s.nextInode + 1 ∧ n1.name = g.name ∧
        n1.childrenLoaded = false)) ∧
    (∀ (s : SysState) (cs : ChangeStats) (c : Change) (g : GNode),
      c.node = some g → c.removed = false → g.trashed = false →
      findNode s c.id = none → haveReadyParent s g = false →
      processChange s cs c
        = some (s, { cs with ignored := cs.ignored + 1 })) ∧
    (∀ (s : SysState) (cs : ChangeStats) (c : Change),
      changeTrash c = some true → findNode s c.id = none →
      processChange s cs c = some (s, cs)) := by
  have hremove : ∀ (s : SysState) (cs : ChangeStats) (cid : String)
      (n : SysNode) (s1 : SysState) (cs1 : ChangeStats),
      findNode s cid = some n →
      (removeNode s n).map
          (fun s2 => (s2, { cs with changed := cs.changed + 1 }))
        = some (s1, cs1) →
      findNode s1 cid = none ∧ cs1.changed = cs.changed + 1 ∧
        cs1.ignored = cs.ignored := by
    intro s cs cid n s1 cs1 hfind hmap
    cases hrem : removeNode s n with
    | none => rw [hrem] at hmap; cases hmap
    | some s2 =>
        rw [hrem] at hmap
        simp only [Option.map_some', Option.some.injEq, Prod.mk.injEq] at hmap
        obtain ⟨h1, h2⟩ := hmap
        subst h1
        subst h2
        have hid : n.id = cid := by
          simpa using List.find?_some hfind
        refine ⟨?_, rfl, rfl⟩
        rw [← hid]
        exact removeNode_find_none s n s2 hrem
  refine ⟨?_, ?_, ?_, ?_, ?_, ?_⟩
  · -- clause 1: removed/trashed, cached
    intro s cs c n s1 cs1 hct hfind hpc
    obtain ⟨cid, cremoved, cnode⟩ := c
    cases cnode with
    | none =>
        cases cremoved with
        | false => simp [changeTrash] at hct
        | true =>
            simp only [processChange] at hpc
            rw [hfind] at hpc
            exact hremove s cs cid n s1 cs1 hfind hpc
    | some g =>
        cases cremoved with
        | true =>
            simp only [processChange, Bool.true_or] at hpc
            rw [hfind] at hpc
            simp only [if_pos rfl] at hpc
            exact hremove s cs cid n s1 cs1 hfind hpc
        | false =>
            have hgt : g.trashed = true := by
              simpa [changeTrash] using hct
            simp only [processChange, Bool.false_or] at hpc
            rw [hfind, hgt] at hpc
            simp only [if_pos rfl] at hpc
            exact hremove s cs cid n s1 cs1 hfind hpc
  · -- clause 2: cached, record fails the inclusion predicate
    intro s cs c g n s1 cs1 hnode hrem htr hinc hfind hpc
    obtain ⟨cid, cremoved, cnode⟩ := c
    cases hnode
    cases hrem
    simp only [processChange, Bool.false_or] at hpc
    rw [hfind, htr, hinc] at hpc
    simp only [Bool.false_eq_true, if_false, Bool.not_false, if_pos rfl] at hpc
    exact hremove s cs cid n s1 cs1 hfind hpc
  · -- clause 3: cached, record included: update in place
    intro s cs c g n s1 cs1 hnode hrem htr hinc hfind hpc
    obtain ⟨cid, cremoved, cnode⟩ := c
    cases hnode
    cases hrem
    simp only [processChange, Bool.false_or] at hpc
    rw [hfind, htr, hinc] at hpc
    simp only [Bool.false_eq_true, if_false, Bool.not_true] at hpc
    cases hupd : updateNode s n.id g with
    | none => rw [hupd] at hpc; cases hpc
    | some s2 =>
        rw [hupd] at hpc
        simp only [Option.map_some', Option.some.injEq, Prod.mk.injEq] at hpc
        obtain ⟨h1, h2⟩ := hpc
        subst h1
        subst h2
        have hid : n.id = cid := by
          simpa using List.find?_some hfind
        have hfind2 : s.nodes.find? (fun q => q.id == n.id) = some n := by
          simpa only [hid] using hfind
        obtain ⟨n1, hn1, hidx, _, hname, _, _, hsize, hver, hdir⟩ :=
          updateNode_find s n.id g n s2 hfind2 hupd
        refine ⟨⟨n1, ?_, hidx, hname, hsize, hver, hdir⟩, rfl, rfl⟩
        rw [← hid]
        exact hn1
  · -- clause 4a: uncached, ready parent: created
    intro s cs c g hnode hrem htr hfind hready
    obtain ⟨cid, cremoved, cnode⟩ := c
    cases hnode
    cases hrem
    constructor
    · simp only [processChange, Bool.false_or]
      rw [hfind, htr, hready]
      simp
    · intro hid
      dsimp only at hid
      subst hid
      rw [insertNode_find s g hfind]
      exact ⟨_, rfl, rfl, rfl, rfl⟩
  · -- clause 4b: uncached, no ready parent: ignored
    intro s cs c g hnode hrem htr hfind hready
    obtain ⟨cid, cremoved, cnode⟩ := c
    cases hnode
    cases hrem
    simp only [processChange, Bool.false_or]
    rw [hfind, htr, hready]
    simp
  · -- clause 5 (the correction): removed/trashed, uncached: no effect
    intro s cs c hct hfind
    obtain ⟨cid, cremoved, cnode⟩ := c
    cases cnode with
    | none =>
        cases cremoved with
        | false => simp [changeTrash] at hct
        | true =>
            simp only [processChange]
            rw [hfind]
    | some g =>
        cases cremoved with
        | true =>
            simp only [processChange, Bool.true_or]
            rw [hfind]
            simp
        | false =>
            have hgt : g.trashed = true := by
              simpa [changeTrash] using hct
            simp only [processChange, Bool.false_or]
            rw [hfind, hgt]
            simp

/-- A cached directory with loaded (empty) children, ready to adopt. -/
def readyParentNode : SysNode :=
  { idx := 1, id := "p", name := "p", ctime := 0, mtime := 0, size := 0,
    version := 0, dir := true, parents := [], childrenLoaded := true,
    children := [] }

/-- A one-node cache containing only the ready parent. -/
def readyState : SysState :=
  { nextInode := 1, nodes := [readyParentNode] }

/-- A trashed record whose id is not cached and whose sole parent is the
ready cached parent. -/
def trashedOrphanG : GNode :=
  { id := "x", name := "x", ctime := 0, mtime := 0, size := 0, version := 0,
    parentIDs := ["p"], ownedByMe := true, trashed := true,
    fileExtension := "", mimeType := "text/plain" }

/-- The change delivering that record. -/
def trashedOrphanChange : Change :=
  { id := "x", removed := false, node := some trashedOrphanG }

/-- C1 counterexample: a trashed record for an uncached id whose parent is
cached with loaded children.  The claim's fourth clause requires a node to
be created (ready parent present — and were it absent, `ignored` to be
incremented); the code leaves the cache and both counters untouched. -/
theorem processChange_trashed_uncached :
    findNode readyState "x" = none ∧
    haveReadyParent readyState trashedOrphanG = true ∧
    processChange readyState { changed := 0, ignored := 0 }
        trashedOrphanChange
      = some (readyState, { changed := 0, ignored := 0 }) := by
  decide

/-- Witness for C1 (amended): a non-trashed record for an uncached id with
no cached parent is counted ignored and the cache is unchanged. -/
theorem processChange_protocol_witness :
    processChange { nextInode := 0, nodes := [] }
        { changed := 0, ignored := 0 }
        { id := "x", removed := false, node := some sampleG }
      = some ({ nextInode := 0, nodes := [] },
          { changed := 0, ignored := 0 + 1 }) :=
  processChange_protocol.2.2.2.2.1 { nextInode := 0, nodes := [] }
    { changed := 0, ignored := 0 }
    { id := "x", removed := false, node := some sampleG } sampleG
    rfl rfl rfl (by decide) (by decide)

/-- Witness for C9: on a fresh phantom file the fetcher left by
Truncate(0) is done with no stored error. -/
theorem pfTruncate_zero_no_download_witness :
    (Fetcher.mk true true none).done = true ∧
      (Fetcher.mk true true none).err = none :=
  have h := (pfTruncate_zero_no_download.2 newPhantomFile true none none
    none none rfl).2.2.2 (Fetcher.mk true true none) (by decide)
  ⟨h.1, h.2.1⟩

/-- C10: the live driver's ProcessChanges invokes the change callback only
for feed changes that carry a file record — one invocation per
record-bearing change, each carrying its converted record — and a feed
whose changes all lack a record (in particular pure removal events)
triggers no callback at all, leaving the system cache and the stats
exactly as they were. -/
theorem processChanges_requires_record :
    (∀ (raws : List RawChange) (l : List Change),
      feedInvocations raws = Except.ok l →
      l.length = (raws.filter (fun r => r.file.isSome)).length ∧
      ∀ ch ∈ l, ch.node.isSome = true) ∧
    (∀ (raws : List RawChange) (s : SysState) (cs : ChangeStats),
      (∀ r ∈ raws, r.file = none) →
      processChangesFeed s cs raws = Except.ok (some (s, cs))) := by
  constructor
  · intro raws
    induction raws with
    | nil =>
        intro l h
        cases h
        simp
    | cons r rest ih =>
        intro l h
        cases hf : r.file with
        | none =>
            rw [feedInvocations, hf] at h
            have := ih l h
            simpa [hf] using this
        | some f =>
            rw [feedInvocations, hf] at h
            dsimp only at h
            cases hn : newNode r.fileId f with
            | none => rw [hn] at h; cases h
            | some n =>
                rw [hn] at h
                cases hrest : feedInvocations rest with
                | error e => rw [hrest] at h; cases h
                | ok l1 =>
                    rw [hrest] at h
                    simp only [Except.map, Except.ok.injEq] at h
                    subst h
                    have := ih l1 hrest
                    simp [hf, this.1]
                    intro ch hch
                    exact this.2 ch hch
  · intro raws s cs hall
    have hempty : feedInvocations raws = Except.ok [] := by
      induction raws with
      | nil => rfl
      | cons r rest ih =>
          have hr : r.file = none := hall r (by simp)
          rw [feedInvocations, hr]
          exact ih (fun q hq => hall q (by simp [hq]))
    simp [processChangesFeed, hempty, Except.map, applyInvocations]

/-- Witness for C10: a feed with a single pure removal event makes no
callback and leaves the one-node cache untouched. -/
theorem processChanges_requires_record_witness :
    processChangesFeed readyState { changed := 0, ignored := 0 }
        [{ fileId := "x", removed := true, file := none }]
      = Except.ok (some (readyState, { changed := 0, ignored := 0 })) :=
  processChanges_requires_record.2
    [{ fileId := "x", removed := true, file := none }] readyState
    { changed := 0, ignored := 0 } (by simp)

end MntGdrive
